import Mathlib

/-!
Verification of the rebuild-gobin tool (main.go).

This file gives a shallow embedding of the tool's core logic:
the inventory parser (`inspectGobin`, its per-line step `processLine`),
the planning/execution loop of `run` (`runStep`, `runFold`), the rebuild
guard (`rebuild`) and the final report (`report`), together with theorems
checking the specification's claims about them.

Strings are modelled as `List Char`; external effects (process execution,
temporary-directory creation, logging) are modelled by explicit oracles
and by recording the would-be effects in the result values.
-/

namespace RebuildGobin

/-- Convert a string literal into the `List Char` representation used throughout. -/
def chars (s : String) : List Char := s.data

/-- Model of Go `unicode.IsSpace`, the separator predicate used by `strings.Fields`. -/
def goIsSpace (c : Char) : Bool :=
  c.toNat == 9 || c.toNat == 10 || c.toNat == 11 || c.toNat == 12 || c.toNat == 13 ||
  c.toNat == 32 || c.toNat == 0x85 || c.toNat == 0xA0 || c.toNat == 0x1680 ||
  (decide (0x2000 ≤ c.toNat) && decide (c.toNat ≤ 0x200A)) ||
  c.toNat == 0x2028 || c.toNat == 0x2029 || c.toNat == 0x202F || c.toNat == 0x205F ||
  c.toNat == 0x3000

/-- Helper for `goFields`: `acc` holds the (reversed) field currently being read. -/
def goFieldsAux : List Char → List Char → List (List Char)
  | acc, [] => if acc = [] then [] else [acc.reverse]
  | acc, c :: rest =>
    if goIsSpace c then
      if acc = [] then goFieldsAux [] rest else acc.reverse :: goFieldsAux [] rest
    else goFieldsAux (c :: acc) rest

/-- Model of Go `strings.Fields`: split around runs of white space, dropping empties. -/
def goFields (s : List Char) : List (List Char) := goFieldsAux [] s

/-- Model of Go `strings.Index`: index of the first occurrence of `pat` in `s`,
or `-1` when `pat` does not occur. -/
def strsIndex : List Char → List Char → Int
  | [], pat => if pat.isPrefixOf ([] : List Char) then 0 else -1
  | c :: rest, pat =>
    if pat.isPrefixOf (c :: rest) then 0
    else if strsIndex rest pat = -1 then -1 else strsIndex rest pat + 1

/-- Embedding of the `program` struct of main.go. -/
structure program where
  path : List Char
  modVersion : List Char
  goVersion : List Char
deriving DecidableEq

/-- Source `p.valid()`: all three fields are non-empty. -/
def program.valid (p : program) : Bool :=
  decide (p.path ≠ []) && decide (p.modVersion ≠ []) && decide (p.goVersion ≠ [])

/-- The development-version sentinel `"(devel)"`. -/
def develLit : List Char := chars "(devel)"

/-- Non-boundary line handling inside `inspectGobin` (main.go lines 166-173):
tokenize by whitespace; a two-token `path` line sets `path`, a `mod` line with
at least three tokens sets `modVersion`, anything else is ignored. -/
def lineFields (current : program) (text : List Char) : program :=
  let fields := goFields text
  if fields.length = 2 ∧ fields.getD 0 [] = chars "path" then
    { current with path := fields.getD 1 [] }
  else if 3 ≤ fields.length ∧ fields.getD 0 [] = chars "mod" then
    { current with modVersion := fields.getD 2 [] }
  else current

/-- One scanner iteration of `inspectGobin` (main.go lines 155-174), acting on the
state `(current candidate, emitted records)`. A line with the install directory as
prefix emits the current candidate when valid and starts a new one whose
`goVersion` is `text[strings.Index(text, ": ")+2:]`; any other line goes through
`lineFields`. -/
def processLine (dir : List Char) (st : program × List program) (text : List Char) :
    program × List program :=
  if dir.isPrefixOf text then
    (program.mk [] [] (text.drop (strsIndex text (chars ": ") + 2).toNat),
     if st.1.valid then st.2 ++ [st.1] else st.2)
  else (lineFields st.1 text, st.2)

/-- The parsing loop of `inspectGobin` (main.go lines 146-181) over the scanner's
lines, including the final emission of the last candidate when valid. The external
process invocation and scanner errors are outside the model. -/
def inspectGobin (dir : List Char) (lines : List (List Char)) : List program :=
  let st := List.foldl (processLine dir) (program.mk [] [] [], []) lines
  if st.1.valid then st.2 ++ [st.1] else st.2

/-- Spec-side companion of `processLine` for the emission claim: it records the
candidate's state at each record boundary instead of filtering by validity. -/
def snapshotsStep (dir : List Char) (st : program × List program) (text : List Char) :
    program × List program :=
  if dir.isPrefixOf text then
    (program.mk [] [] (text.drop (strsIndex text (chars ": ") + 2).toNat),
     st.2 ++ [st.1])
  else (lineFields st.1 text, st.2)

/-- Spec-side: the candidate states at the moment each new record boundary is
detected, plus the state when the input is exhausted. -/
def snapshots (dir : List Char) (lines : List (List Char)) : List program :=
  let st := List.foldl (snapshotsStep dir) (program.mk [] [] [], []) lines
  st.2 ++ [st.1]

/-- The four planner actions of the specification, as decided by the branch
structure of `run` (main.go lines 77-95). -/
inductive Action where
  | skip
  | skipUnrebuildable
  | rebuildLatest
  | rebuildPinned
deriving DecidableEq

/-- The per-record decision of `run`'s loop (main.go lines 77-95): `continue` on a
toolchain match without `-u` is `skip`; the `(devel)` branch is
`skipUnrebuildable`; otherwise the target version is `"latest"` under `-u` and the
record's `modVersion` without it. The second component is the target version
spec used by the rebuild. -/
def planAction (upgrade : Bool) (gover : List Char) (p : program) : Action × List Char :=
  if upgrade = false ∧ p.goVersion = gover then (Action.skip, [])
  else if p.modVersion = develLit then (Action.skipUnrebuildable, [])
  else if upgrade then (Action.rebuildLatest, chars "latest")
  else (Action.rebuildPinned, p.modVersion)

/-- Model of `strings.ContainsRune`. -/
def containsRune (s : List Char) (r : Char) : Bool := s.any (fun c => c == r)

/-- Embedding of `rebuild` (main.go lines 118-128). `installOk` is the oracle for
the external `go install` process, taking the working directory and the spec.
First component: the `(dir, spec)` invocation of the external install action if
one was performed, `none` otherwise; second component: whether `rebuild`
returned without error. -/
def rebuild (installOk : List Char → List Char → Bool) (tempDir spec : List Char) :
    Option (List Char × List Char) × Bool :=
  if spec = [] ∨ containsRune spec '@' = false then (none, false)
  else (some (tempDir, spec), installOk tempDir spec)

/-- The loop state of `run` (main.go lines 74-76), extended with a count of
`os.MkdirTemp` calls so that scratch-directory creation is observable. -/
structure RunState where
  skipped : List (List Char)
  failed : List (List Char)
  tempDir : List Char
  mkdirCalls : Nat
deriving DecidableEq

/-- Model of the name returned by `os.MkdirTemp("", "rebuild-gobin-*")`; a fixed
fresh non-empty path (the model treats directory creation as always succeeding). -/
def tmpDirName : List Char := chars "/tmp/rebuild-gobin-1"

/-- One iteration of `run`'s loop (main.go lines 77-99). -/
def runStep (upgrade : Bool) (gover : List Char) (installOk : List Char → List Char → Bool)
    (st : RunState) (p : program) : RunState :=
  if upgrade = false ∧ p.goVersion = gover then st
  else if p.modVersion = develLit then { st with skipped := st.skipped ++ [p.path] }
  else
    let st1 := if st.tempDir = [] then
      { st with tempDir := tmpDirName, mkdirCalls := st.mkdirCalls + 1 } else st
    let targetVersion := if upgrade then chars "latest" else p.modVersion
    let spec := p.path ++ chars "@" ++ targetVersion
    if (rebuild installOk st1.tempDir spec).2 then st1
    else { st1 with failed := st1.failed ++ [p.path] }

/-- The initial loop state of `run`: empty accumulators, no scratch directory. -/
def initState : RunState := RunState.mk [] [] [] 0

/-- The whole loop of `run` (main.go lines 77-99) over the parsed programs. -/
def runFold (upgrade : Bool) (gover : List Char) (installOk : List Char → List Char → Bool)
    (ps : List program) : RunState :=
  List.foldl (runStep upgrade gover installOk) initState ps

/-- A line of the final report, as printed by `log.Println(" ", s)`. -/
def indentEntry (s : List Char) : List Char := chars "  " ++ s

/-- Header of the skipped-unrebuildable section (main.go line 104). -/
def skippedHeader : List Char :=
  chars "Skipped the following programs because of the (devel) module version:"

/-- Header of the failed section (main.go line 110). -/
def failedHeader : List Char :=
  chars "There were errors installing the following modules, see the full log above:"

/-- The final report of `run` (main.go lines 100-115) as the list of printed
lines: nothing when both accumulators are empty, otherwise one section per
non-empty accumulator. -/
def report (skipped failed : List (List Char)) : List (List Char) :=
  if skipped = [] ∧ failed = [] then []
  else
    (if skipped = [] then [] else skippedHeader :: skipped.map indentEntry) ++
    (if failed = [] then [] else failedHeader :: failed.map indentEntry)

/-- The run after parsing: final loop state plus the produced report. -/
def runModel (upgrade : Bool) (gover : List Char) (installOk : List Char → List Char → Bool)
    (ps : List program) : RunState × List (List Char) :=
  (runFold upgrade gover installOk ps,
   report (runFold upgrade gover installOk ps).skipped
     (runFold upgrade gover installOk ps).failed)

/-- Whether `run`'s loop reaches the rebuild branch for a record: it is neither
skipped by the toolchain match (rule 1) nor by the `(devel)` sentinel (rule 2). -/
def needsRebuild (upgrade : Bool) (gover : List Char) (p : program) : Bool :=
  decide (¬(upgrade = false ∧ p.goVersion = gover) ∧ p.modVersion ≠ develLit)

/-- The `path@version` specification `run` hands to `rebuild` (main.go lines 92-96). -/
def specStr (upgrade : Bool) (p : program) : List Char :=
  p.path ++ chars "@" ++ (if upgrade then chars "latest" else p.modVersion)

/-- The record-boundary condition as the specification words it: the line begins
with the install-directory path followed by a suffix that contains a colon. -/
def specBoundary (dir text : List Char) : Bool :=
  dir.isPrefixOf text && (text.drop dir.length).any (fun c => c == ':')

/-- When a non-empty pattern occurs nowhere in `s`, `strsIndex` returns `-1`. -/
theorem strsIndex_of_no_occurrence (pat : List Char) (hpat : pat ≠ []) (s : List Char)
    (h : ∀ j, j < s.length → pat.isPrefixOf (s.drop j) = false) :
    strsIndex s pat = -1 := by
  induction s with
  | nil =>
    obtain ⟨c, cs, rfl⟩ := List.exists_cons_of_ne_nil hpat
    simp [strsIndex, List.isPrefixOf]
  | cons c rest ih =>
    have h0 := h 0 (by simp)
    rw [List.drop_zero] at h0
    have hr := ih (fun j hj => by
      have h2 := h (j + 1) (by simpa [List.length_cons] using Nat.succ_lt_succ hj)
      rwa [List.drop_succ_cons] at h2)
    simp [strsIndex, h0, hr]

/-- When the first occurrence of the pattern in `s` is at index `i`, `strsIndex`
returns `i`. -/
theorem strsIndex_of_first_occurrence (pat : List Char) (s : List Char) :
    ∀ i : Nat, pat.isPrefixOf (s.drop i) = true →
    (∀ j, j < i → pat.isPrefixOf (s.drop j) = false) →
    strsIndex s pat = (i : Int) := by
  induction s with
  | nil =>
    intro i hi hj
    match i with
    | 0 =>
      rw [List.drop_nil] at hi
      simp [strsIndex, hi]
    | k + 1 =>
      have h0 := hj 0 (Nat.succ_pos k)
      rw [List.drop_zero] at h0
      rw [List.drop_nil] at hi
      simp [h0] at hi
  | cons c rest ih =>
    intro i hi hj
    match i with
    | 0 =>
      rw [List.drop_zero] at hi
      simp [strsIndex, hi]
    | k + 1 =>
      have h0 := hj 0 (Nat.succ_pos k)
      rw [List.drop_zero] at h0
      have hr := ih k (by rwa [List.drop_succ_cons] at hi) (fun j hjk => by
        have h2 := hj (j + 1) (Nat.succ_lt_succ hjk)
        rwa [List.drop_succ_cons] at h2)
      have hne : ((k : Int)) ≠ -1 := by omega
      simp only [strsIndex, h0, Bool.false_eq_true, if_false, hr, hne, if_neg]
      omega

/-- C1: the planner's per-record decision follows the four rules of the
specification in order: toolchain match without `-u` is Skip; otherwise the
`(devel)` sentinel is SkipUnrebuildable; otherwise `-u` gives RebuildLatest with
target `"latest"`; otherwise RebuildPinned with the record's module version. -/
theorem planner_decision_rules (up : Bool) (gv : List Char) (p : program)
    (_hv : p.valid = true) :
    ((up = false ∧ p.goVersion = gv) → planAction up gv p = (Action.skip, [])) ∧
    (¬(up = false ∧ p.goVersion = gv) → p.modVersion = develLit →
      (planAction up gv p).1 = Action.skipUnrebuildable) ∧
    (¬(up = false ∧ p.goVersion = gv) → p.modVersion ≠ develLit → up = true →
      planAction up gv p = (Action.rebuildLatest, chars "latest")) ∧
    (¬(up = false ∧ p.goVersion = gv) → p.modVersion ≠ develLit → up = false →
      planAction up gv p = (Action.rebuildPinned, p.modVersion)) := by
  unfold planAction
  refine ⟨fun h => by simp [h], fun h1 h2 => by simp [h1, h2], ?_, ?_⟩
  · intro h1 h2 h3
    simp [h1, h2, h3]
  · intro h1 h2 h3
    subst h3
    have hgv : ¬p.goVersion = gv := fun hgv => h1 ⟨rfl, hgv⟩
    simp [hgv, h2]

/-- Witness for C1: a valid record that does not match the toolchain, under
`-u`, is planned as RebuildLatest targeting `"latest"`. -/
theorem planner_decision_rules_witness :
    (program.mk (chars "a") (chars "v1.2.0") (chars "go1.20")).valid = true ∧
    planAction true (chars "go1.21") (program.mk (chars "a") (chars "v1.2.0") (chars "go1.20")) =
      (Action.rebuildLatest, chars "latest") :=
  ⟨by decide,
   (planner_decision_rules true (chars "go1.21")
      (program.mk (chars "a") (chars "v1.2.0") (chars "go1.20")) (by decide)).2.2.1
     (by decide) (by decide) rfl⟩

/-- Counterexample for C4: a valid record with the `(devel)` module version whose
build toolchain matches the active one is planned as Skip (the toolchain-match
rule fires first), not SkipUnrebuildable. -/
theorem devel_record_counterexample :
    (program.mk (chars "a") (chars "(devel)") (chars "go1.20")).valid = true ∧
    (program.mk (chars "a") (chars "(devel)") (chars "go1.20")).modVersion = develLit ∧
    (planAction false (chars "go1.20")
      (program.mk (chars "a") (chars "(devel)") (chars "go1.20"))).1 = Action.skip := by
  decide

/-- C4 (amended): a valid `(devel)` record that is not already skipped by the
toolchain-match rule (upgrade set, or toolchain differing from the active one)
is always planned as SkipUnrebuildable, never as a rebuild action. -/
theorem devel_record_skipUnrebuildable (up : Bool) (gv : List Char) (p : program)
    (_hv : p.valid = true) (hdev : p.modVersion = develLit)
    (hnot : ¬(up = false ∧ p.goVersion = gv)) :
    (planAction up gv p).1 = Action.skipUnrebuildable := by
  unfold planAction
  simp [hnot, hdev]

/-- Witness for the amended C4: a `(devel)` record with a non-matching toolchain
is planned as SkipUnrebuildable. -/
theorem devel_record_skipUnrebuildable_witness :
    (planAction false (chars "go1.21")
      (program.mk (chars "a") (chars "(devel)") (chars "go1.20"))).1 =
      Action.skipUnrebuildable :=
  devel_record_skipUnrebuildable false (chars "go1.21")
    (program.mk (chars "a") (chars "(devel)") (chars "go1.20"))
    (by decide) (by decide) (by decide)

/-- Counterexample for C6: a specification with two `@` delimiters (so not
exactly one) still passes `rebuild`'s guard and invokes the install action. -/
theorem rebuild_guard_counterexample :
    (chars "a@b@c").count '@' = 2 ∧
    (rebuild (fun _ _ => true) [] (chars "a@b@c")).1 = some ([], chars "a@b@c") := by
  decide

/-- C6 (amended): `rebuild` returns an error without invoking the install action
exactly when the specification is empty or contains no `@` at all; otherwise it
invokes the install action with that specification in the scratch directory. -/
theorem rebuild_guard (f : List Char → List Char → Bool) (d s : List Char) :
    ((rebuild f d s).1 = none ↔ (s = [] ∨ containsRune s '@' = false)) ∧
    (containsRune s '@' = true →
      (rebuild f d s).1 = some (d, s) ∧ (rebuild f d s).2 = f d s) := by
  constructor
  · by_cases hg : s = [] ∨ containsRune s '@' = false
    · simp [rebuild, hg]
    · simp [rebuild, hg]
  · intro hc
    have hg : ¬(s = [] ∨ containsRune s '@' = false) := by
      rintro (rfl | h)
      · simp [containsRune] at hc
      · rw [hc] at h
        cases h
    simp [rebuild, hg]

/-- Witness for the amended C6: a well-formed `path@version` specification is
passed to the install action together with the scratch directory. -/
theorem rebuild_guard_witness :
    containsRune (chars "a@v") '@' = true ∧
    (rebuild (fun _ _ => true) (chars "t") (chars "a@v")).1 = some (chars "t", chars "a@v") :=
  ⟨by decide, ((rebuild_guard (fun _ _ => true) (chars "t") (chars "a@v")).2 (by decide)).1⟩

/-- Counterexample for C2: a line that begins with the install-directory path but
has no colon anywhere is not a boundary in the specification's sense, yet the
parser still starts a new candidate there (and sets its `goVersion` to the line
with its first character removed). -/
theorem boundary_no_colon_counterexample :
    specBoundary (chars "go/bin") (chars "go/binX") = false ∧
    processLine (chars "go/bin") (program.mk (chars "p") [] [], []) (chars "go/binX") =
      (program.mk [] [] (chars "o/binX"), []) := by
  decide

/-- C2 (amended): the parser starts a new candidate exactly when the line begins
with the install-directory path (no colon is required); on such a line the new
candidate's `goVersion` is the text following the first `": "` occurrence when
the line contains one, and on any other line the candidate is only updated by
the field rules, never restarted. -/
theorem boundary_detection (dir : List Char) (st : program × List program)
    (text : List Char) :
    (dir.isPrefixOf text = true →
      (processLine dir st text).1.path = [] ∧
      (processLine dir st text).1.modVersion = [] ∧
      (∀ i : Nat, (chars ": ").isPrefixOf (text.drop i) = true →
        (∀ j, j < i → (chars ": ").isPrefixOf (text.drop j) = false) →
        (processLine dir st text).1.goVersion = text.drop (i + 2))) ∧
    (dir.isPrefixOf text = false →
      (processLine dir st text).1 = lineFields st.1 text ∧
      (processLine dir st text).2 = st.2) := by
  constructor
  · intro hb
    refine ⟨by simp [processLine, hb], by simp [processLine, hb], ?_⟩
    intro i hi hj
    have hidx := strsIndex_of_first_occurrence (chars ": ") text i hi hj
    simp only [processLine, hb, if_true]
    rw [hidx]
    have ht : ((i : Int) + 2).toNat = i + 2 := by omega
    rw [ht]
  · intro hb
    constructor <;> simp [processLine, hb]

/-- Witness for the amended C2: on a boundary line containing `": "` at first
position 8, the new candidate's `goVersion` is the text after it. -/
theorem boundary_detection_witness :
    (chars "go/bin").isPrefixOf (chars "go/bin/x: go1.20") = true ∧
    (processLine (chars "go/bin") (program.mk [] [] [], [])
      (chars "go/bin/x: go1.20")).1.goVersion = chars "go1.20" := by
  refine ⟨by decide, ?_⟩
  have h := (boundary_detection (chars "go/bin") (program.mk [] [] [], [])
    (chars "go/bin/x: go1.20")).1 (by decide)
  rw [h.2.2 8 (by decide) (by decide)]
  decide

/-- C10: on a boundary line (non-empty directory prefix) containing no `": "`
substring, the parser does not fail: `strings.Index` returns `-1`, the slice
starts at index `1`, and the new candidate's `goVersion` is the line with only
its first character removed. -/
theorem no_colon_boundary_safe (dir : List Char) (st : program × List program)
    (text : List Char) (_hdir : dir ≠ []) (hb : dir.isPrefixOf text = true)
    (hno : ∀ j, j < text.length → (chars ": ").isPrefixOf (text.drop j) = false) :
    (processLine dir st text).1.goVersion = text.drop 1 := by
  have hidx : strsIndex text (chars ": ") = -1 :=
    strsIndex_of_no_occurrence (chars ": ") (by decide) text hno
  simp only [processLine, hb, if_true]
  rw [hidx]
  norm_num

/-- Witness for C10: the colon-free boundary line `"go/binX"` yields the
candidate `goVersion` `"o/binX"`. -/
theorem no_colon_boundary_safe_witness :
    (processLine (chars "go/bin") (program.mk [] [] [], []) (chars "go/binX")).1.goVersion =
      (chars "go/binX").drop 1 :=
  no_colon_boundary_safe (chars "go/bin") (program.mk [] [] [], []) (chars "go/binX")
    (by decide) (by decide) (by decide)

/-- A two-token line whose first token is `path` sets the candidate's path to the
second token. -/
theorem lineFields_path_rule (c : program) (text t : List Char)
    (h : goFields text = [chars "path", t]) :
    lineFields c text = { c with path := t } := by
  unfold lineFields
  rw [h]
  simp

/-- A line of at least three tokens whose first token is `mod` sets the
candidate's module version to the third token. -/
theorem lineFields_mod_rule (c : program) (text t2 t3 : List Char) (rest : List (List Char))
    (h : goFields text = chars "mod" :: t2 :: t3 :: rest) :
    lineFields c text = { c with modVersion := t3 } := by
  unfold lineFields
  rw [h]
  have hne : chars "mod" ≠ chars "path" := by decide
  have hl : ¬(chars "mod" :: t2 :: t3 :: rest).length = 2 := by
    simp only [List.length_cons]
    omega
  have h3 : 3 ≤ (chars "mod" :: t2 :: t3 :: rest).length := by
    simp only [List.length_cons]
    omega
  simp [hne, hl, h3]

/-- Any tokenization matching neither field rule leaves the candidate unchanged. -/
theorem lineFields_other_rule (c : program) (text : List Char)
    (h1 : ¬∃ t, goFields text = [chars "path", t])
    (h2 : ¬∃ t2 t3 rest, goFields text = chars "mod" :: t2 :: t3 :: rest) :
    lineFields c text = c := by
  rcases hgf : goFields text with _ | ⟨a, _ | ⟨b, _ | ⟨d, rest⟩⟩⟩
  · simp [lineFields, hgf]
  · simp [lineFields, hgf]
  · have hna : a ≠ chars "path" := fun ha => h1 ⟨b, by rw [hgf, ha]⟩
    simp [lineFields, hgf, hna]
  · have hna : a ≠ chars "mod" := fun ha => h2 ⟨b, d, rest, by rw [hgf, ha]⟩
    have hl : ¬(a :: b :: d :: rest).length = 2 := by
      simp only [List.length_cons]
      omega
    simp [lineFields, hgf, hna, hl]

/-- C5: a non-boundary line is tokenized by whitespace; exactly-two tokens led by
`path` set the candidate's path from the second token, three-or-more tokens led
by `mod` set the module version from the third token, and every other line
leaves the candidate (and the emitted records) unchanged. -/
theorem nonboundary_line_rules (dir : List Char) (st : program × List program)
    (text : List Char) (hb : dir.isPrefixOf text = false) :
    (processLine dir st text).2 = st.2 ∧
    (∀ t, goFields text = [chars "path", t] →
      (processLine dir st text).1 = { st.1 with path := t }) ∧
    (∀ t2 t3 rest, goFields text = chars "mod" :: t2 :: t3 :: rest →
      (processLine dir st text).1 = { st.1 with modVersion := t3 }) ∧
    ((¬∃ t, goFields text = [chars "path", t]) →
     (¬∃ t2 t3 rest, goFields text = chars "mod" :: t2 :: t3 :: rest) →
      (processLine dir st text).1 = st.1) := by
  have hp : (processLine dir st text).1 = lineFields st.1 text := by
    simp [processLine, hb]
  refine ⟨by simp [processLine, hb], ?_, ?_, ?_⟩
  · intro t ht
    rw [hp, lineFields_path_rule st.1 text t ht]
  · intro t2 t3 rest ht
    rw [hp, lineFields_mod_rule st.1 text t2 t3 rest ht]
  · intro h1 h2
    rw [hp, lineFields_other_rule st.1 text h1 h2]

/-- Witness for C5: the line `"path a"` sets the candidate's path to `"a"`. -/
theorem nonboundary_line_rules_witness :
    (chars "x").isPrefixOf (chars "path a") = false ∧
    (processLine (chars "x") (program.mk [] [] (chars "g"), []) (chars "path a")).1 =
      { program.mk [] [] (chars "g") with path := chars "a" } :=
  ⟨by decide,
   (nonboundary_line_rules (chars "x") (program.mk [] [] (chars "g"), []) (chars "path a")
      (by decide)).2.1 (chars "a") (by decide)⟩

/-- The parsing fold and its snapshot companion stay in lockstep: same current
candidate, and the emitted records are exactly the valid snapshots. -/
theorem emit_filter_rel (dir : List Char) (lines : List (List Char)) :
    ∀ (current : program) (out snaps : List program),
    out = snaps.filter (fun p => p.valid) →
    (List.foldl (processLine dir) (current, out) lines).1 =
      (List.foldl (snapshotsStep dir) (current, snaps) lines).1 ∧
    (List.foldl (processLine dir) (current, out) lines).2 =
      ((List.foldl (snapshotsStep dir) (current, snaps) lines).2).filter
        (fun p => p.valid) := by
  induction lines with
  | nil =>
    intro c out snaps h
    exact ⟨rfl, h⟩
  | cons text rest ih =>
    intro c out snaps h
    simp only [List.foldl_cons]
    by_cases hb : dir.isPrefixOf text
    · have e1 : processLine dir (c, out) text =
          (program.mk [] [] (text.drop (strsIndex text (chars ": ") + 2).toNat),
           if c.valid then out ++ [c] else out) := by
        simp [processLine, hb]
      have e2 : snapshotsStep dir (c, snaps) text =
          (program.mk [] [] (text.drop (strsIndex text (chars ": ") + 2).toNat),
           snaps ++ [c]) := by
        simp [snapshotsStep, hb]
      rw [e1, e2]
      apply ih
      rw [List.filter_append, ← h]
      by_cases hv : c.valid <;> simp [hv]
    · have e1 : processLine dir (c, out) text = (lineFields c text, out) := by
        simp [processLine, hb]
      have e2 : snapshotsStep dir (c, snaps) text = (lineFields c text, snaps) := by
        simp [snapshotsStep, hb]
      rw [e1, e2]
      exact ih _ _ _ h

/-- C3: the parser emits exactly the candidates that are valid at the moment a
new record boundary is detected or the input is exhausted, in input order;
invalid or partial candidates are silently discarded. -/
theorem parser_emits_valid_records (dir : List Char) (lines : List (List Char)) :
    inspectGobin dir lines = (snapshots dir lines).filter (fun p => p.valid) := by
  obtain ⟨h1, h2⟩ := emit_filter_rel dir lines (program.mk [] [] []) [] [] rfl
  simp only [inspectGobin, snapshots]
  rw [List.filter_append, h1, h2]
  by_cases hv : (List.foldl (snapshotsStep dir) (program.mk [] [] [], []) lines).1.valid <;>
    simp [hv]

/-- Every line of a report section body starts with a space. -/
theorem indentEntry_head (x : List Char) (l : List (List Char))
    (h : x ∈ l.map indentEntry) : x.head? = some ' ' := by
  simp only [List.mem_map] at h
  obtain ⟨y, _, rfl⟩ := h
  rfl

/-- A line whose first character is not a space is not a section body line. -/
theorem header_not_indent (hd : List Char) (c : Char) (l : List (List Char))
    (h1 : hd.head? = some c) (h2 : c ≠ ' ') : hd ∉ l.map indentEntry := by
  intro hmem
  have h3 := indentEntry_head hd l hmem
  rw [h1] at h3
  exact h2 (Option.some_injective _ h3)

/-- C8: the report is empty exactly when both accumulators are empty, prints the
skipped-unrebuildable section exactly when `skipped` is non-empty, and prints
the failed section exactly when `failed` is non-empty. -/
theorem report_sections (s f : List (List Char)) :
    (report s f = [] ↔ (s = [] ∧ f = [])) ∧
    (skippedHeader ∈ report s f ↔ s ≠ []) ∧
    (failedHeader ∈ report s f ↔ f ≠ []) := by
  have hsk : skippedHeader.head? = some 'S' := rfl
  have hfl : failedHeader.head? = some 'T' := rfl
  have hne : skippedHeader ≠ failedHeader := by decide
  by_cases hs : s = [] <;> by_cases hf : f = []
  · subst hs
    subst hf
    simp [report]
  · subst hs
    have hni := header_not_indent skippedHeader 'S' f hsk (by decide)
    simp [report, hf, hni, hne]
  · subst hf
    have hni := header_not_indent failedHeader 'T' s hfl (by decide)
    simp [report, hs, hni, Ne.symm hne]
  · have hni1 := header_not_indent skippedHeader 'S' f hsk (by decide)
    have hni2 := header_not_indent failedHeader 'T' s hfl (by decide)
    simp [report, hs, hf, hni1, hni2, hne, Ne.symm hne]

/-- Invariant of `run`'s loop from any state whose scratch directory is either
absent or the one created by the first rebuild: the failed accumulator grows by
exactly the paths of the records that reach the rebuild branch and whose rebuild
errors, the scratch directory is created exactly once when some record needs a
rebuild and the state had none, and the scratch-directory invariant is
preserved. -/
theorem runFold_aux (up : Bool) (gv : List Char) (f : List Char → List Char → Bool)
    (ps : List program) :
    ∀ st : RunState, st.tempDir = [] ∨ st.tempDir = tmpDirName →
    (List.foldl (runStep up gv f) st ps).failed =
      st.failed ++ (ps.filter (fun p =>
        needsRebuild up gv p && !(rebuild f tmpDirName (specStr up p)).2)).map program.path ∧
    (List.foldl (runStep up gv f) st ps).mkdirCalls =
      st.mkdirCalls +
        (if st.tempDir = [] ∧ ps.any (needsRebuild up gv) = true then 1 else 0) ∧
    ((List.foldl (runStep up gv f) st ps).tempDir = [] ∨
     (List.foldl (runStep up gv f) st ps).tempDir = tmpDirName) := by
  have htmp : tmpDirName ≠ ([] : List Char) := by decide
  induction ps with
  | nil =>
    intro st hst
    refine ⟨by simp, by simp, hst⟩
  | cons p rest ih =>
    intro st hst
    simp only [List.foldl_cons, List.filter_cons, List.any_cons]
    by_cases hA : up = false ∧ p.goVersion = gv
    · have e : runStep up gv f st p = st := by simp [runStep, hA]
      have hnr : needsRebuild up gv p = false := by simp [needsRebuild, hA]
      rw [e]
      obtain ⟨ih1, ih2, ih3⟩ := ih st hst
      refine ⟨by rw [ih1]; simp [hnr], by rw [ih2]; simp [hnr], ih3⟩
    · by_cases hD : p.modVersion = develLit
      · have e : runStep up gv f st p = { st with skipped := st.skipped ++ [p.path] } := by
          simp [runStep, hA, hD]
        have hnr : needsRebuild up gv p = false := by simp [needsRebuild, hA, hD]
        rw [e]
        obtain ⟨ih1, ih2, ih3⟩ :=
          ih { st with skipped := st.skipped ++ [p.path] } (by simpa using hst)
        refine ⟨by rw [ih1]; simp [hnr], by rw [ih2]; simp [hnr], ih3⟩
      · have hnr : needsRebuild up gv p = true := by simp [needsRebuild, hA, hD]
        rcases hst with hT | hT
        · have e : runStep up gv f st p =
              (if (rebuild f tmpDirName (specStr up p)).2 then
                RunState.mk st.skipped st.failed tmpDirName (st.mkdirCalls + 1)
               else
                RunState.mk st.skipped (st.failed ++ [p.path]) tmpDirName
                  (st.mkdirCalls + 1)) := by
            simp [runStep, hA, hD, hT, specStr]
          cases hr : (rebuild f tmpDirName (specStr up p)).2
          · rw [e, if_neg (by simp [hr])]
            obtain ⟨ih1, ih2, ih3⟩ :=
              ih (RunState.mk st.skipped (st.failed ++ [p.path]) tmpDirName
                (st.mkdirCalls + 1)) (by simp)
            refine ⟨?_, ?_, ih3⟩
            · rw [ih1]
              simp [hnr, hr, List.append_assoc]
            · rw [ih2]
              simp [htmp, hT, hnr]
          · rw [e, if_pos hr]
            obtain ⟨ih1, ih2, ih3⟩ :=
              ih (RunState.mk st.skipped st.failed tmpDirName (st.mkdirCalls + 1)) (by simp)
            refine ⟨?_, ?_, ih3⟩
            · rw [ih1]
              simp [hnr, hr]
            · rw [ih2]
              simp [htmp, hT, hnr]
        · have hTne : ¬st.tempDir = [] := by
            rw [hT]
            exact htmp
          have e : runStep up gv f st p =
              (if (rebuild f st.tempDir (specStr up p)).2 then st
               else RunState.mk st.skipped (st.failed ++ [p.path]) st.tempDir
                 st.mkdirCalls) := by
            simp [runStep, hA, hD, hTne, specStr]
          cases hr : (rebuild f tmpDirName (specStr up p)).2
          · rw [e, if_neg (by rw [hT]; simp [hr])]
            obtain ⟨ih1, ih2, ih3⟩ :=
              ih (RunState.mk st.skipped (st.failed ++ [p.path]) st.tempDir st.mkdirCalls)
                (by simpa using Or.inr hT)
            refine ⟨?_, ?_, ih3⟩
            · rw [ih1]
              simp [hnr, hr, List.append_assoc]
            · rw [ih2]
              simp [hTne]
          · rw [e, if_pos (by rw [hT]; exact hr)]
            obtain ⟨ih1, ih2, ih3⟩ := ih st (Or.inr hT)
            refine ⟨?_, ?_, ih3⟩
            · rw [ih1]
              simp [hnr, hr]
            · rw [ih2]
              simp [hTne]

/-- C9: across a whole run the scratch directory is created exactly once when
some record reaches the rebuild branch and never otherwise; in particular it is
created at most once. -/
theorem scratch_dir_lazy_once (up : Bool) (gv : List Char)
    (f : List Char → List Char → Bool) (ps : List program) :
    (runFold up gv f ps).mkdirCalls =
      (if ps.any (needsRebuild up gv) = true then 1 else 0) ∧
    (runFold up gv f ps).mkdirCalls ≤ 1 := by
  obtain ⟨_, h2, _⟩ := runFold_aux up gv f ps initState (Or.inl rfl)
  have h3 : (runFold up gv f ps).mkdirCalls =
      (if ps.any (needsRebuild up gv) = true then 1 else 0) := by
    rw [runFold] at *
    rw [h2]
    simp [initState]
  refine ⟨h3, ?_⟩
  rw [h3]
  split <;> omega

/-- C7: over the whole batch, `run` records exactly the paths of the records
whose rebuild invocation failed into the failed accumulator, in order — every
plan item is processed regardless of earlier failures — and the final report is
still produced from the accumulators. -/
theorem rebuild_failure_isolated (up : Bool) (gv : List Char)
    (f : List Char → List Char → Bool) (ps : List program) :
    (runFold up gv f ps).failed =
      (ps.filter (fun p =>
        needsRebuild up gv p && !(rebuild f tmpDirName (specStr up p)).2)).map program.path ∧
    (runModel up gv f ps).2 =
      report (runFold up gv f ps).skipped (runFold up gv f ps).failed := by
  obtain ⟨h1, _, _⟩ := runFold_aux up gv f ps initState (Or.inl rfl)
  refine ⟨?_, rfl⟩
  rw [runFold] at *
  rw [h1]
  simp [initState]

end RebuildGobin
